import Mathlib

/-!
Verification of the SLA support-generation and rasterization core of the
PrusaSlicer fragment: the pillar pairing hash, the support-tree builder's
mechanical invariants, pad generation, the polygon rasterizer
(`SLARaster.cpp`) and the dynamic configuration store (`Config.cpp`),
shallowly embedded in Lean 4 with exact rational arithmetic in place of
IEEE doubles.
-/

namespace Slic3rSpec

/-! ## Pillar index pairing hash (`sla::pairhash`) -/

/-- Modelled from the spec: `sla::pairhash` itself is not among the sources
(only its test harness `test_pairhash` is); the spec describes a "symmetric
pairing scheme over candidate pillar indices" in which the same unordered
pair always hashes to the same bucket and distinct pairs never collide in
the tested range.  We model it as packing the smaller index into the high
half-word and the larger into the low half-word; 16 is the half-word shift
of the 32-bit-index instantiations exercised by the test, which covers the
tested index range `0..999`. -/
def pairhashBits : ℕ := 16

/-- The pairing hash of two pillar indices: smaller index shifted into the
high bits, larger index in the low bits. -/
def pairhash (a b : ℕ) : ℕ := min a b * 2 ^ pairhashBits + max a b

/-- Uniqueness of the packed representation: high/low decomposition with a
bounded low word is injective. -/
lemma pack_inj {a b c d : ℕ} (hb : b < 65536) (hd : d < 65536)
    (h : a * 65536 + b = c * 65536 + d) : a = c ∧ b = d := by omega

/-- C4: the pillar pairing hash is commutative, and injective on unordered
pairs of distinct indices within the tested range `0..999`: equal hashes
force equal unordered pairs. -/
theorem pairhash_comm_and_inj :
    (∀ i j : ℕ, pairhash i j = pairhash j i) ∧
    (∀ i j i' j' : ℕ, i < 1000 → j < 1000 → i' < 1000 → j' < 1000 →
      i ≠ j → i' ≠ j' → pairhash i j = pairhash i' j' →
      (i = i' ∧ j = j') ∨ (i = j' ∧ j = i')) := by
  constructor
  · intro i j
    simp only [pairhash, min_comm, max_comm]
  · intro i j i' j' hi hj hi' hj' hij hij' h
    have hmaxb : max i j < 65536 := lt_of_lt_of_le (max_lt hi hj) (by norm_num)
    have hmaxb' : max i' j' < 65536 := lt_of_lt_of_le (max_lt hi' hj') (by norm_num)
    have hpack : min i j * 65536 + max i j = min i' j' * 65536 + max i' j' := by
      simpa [pairhash, pairhashBits] using h
    obtain ⟨hmin, hmax⟩ := pack_inj hmaxb hmaxb' hpack
    rcases le_total i j with hle | hle <;> rcases le_total i' j' with hle' | hle'
    · left
      rw [min_eq_left hle, min_eq_left hle'] at hmin
      rw [max_eq_right hle, max_eq_right hle'] at hmax
      exact ⟨hmin, hmax⟩
    · right
      rw [min_eq_left hle, min_eq_right hle'] at hmin
      rw [max_eq_right hle, max_eq_left hle'] at hmax
      exact ⟨hmin, hmax⟩
    · right
      rw [min_eq_right hle, min_eq_left hle'] at hmin
      rw [max_eq_left hle, max_eq_right hle'] at hmax
      exact ⟨hmax, hmin⟩
    · left
      rw [min_eq_right hle, min_eq_right hle'] at hmin
      rw [max_eq_left hle, max_eq_left hle'] at hmax
      exact ⟨hmax, hmin⟩

/-- Witness for C4 at the concrete pair (1,2) against (2,1). -/
theorem pairhash_comm_and_inj_witness :
    (1 = 2 ∧ 2 = 1) ∨ (1 = 2 ∧ 2 = 1) ∨ (1 = 1 ∧ 2 = 2) :=
  Or.inr (pairhash_comm_and_inj.2 1 2 2 1 (by norm_num) (by norm_num)
    (by norm_num) (by norm_num) (by norm_num) (by norm_num) (by decide))

/-! ## Support tree builder (modelled): pillars, bridges, slices -/

/-- A 3D point with exact rational coordinates (the sources use `Vec3d`). -/
structure Vec3 where
  x : ℚ
  y : ℚ
  z : ℚ
deriving DecidableEq

/-- Modelled from the spec: `sla::SupportConfig` is declared in a header that
is not among the sources; the spec (section 6) lists its numeric fields.  The
minimum bridge slope angle is carried through its sine and cosine so that the
builder's slope test stays inside exact rational arithmetic. -/
structure SupportConfig where
  object_elevation_mm : ℚ
  head_front_radius_mm : ℚ
  head_penetration_mm : ℚ
  max_solo_pillar_height_mm : ℚ
  max_dual_pillar_height_mm : ℚ
  pillar_cascade_neighbors : ℕ
  max_bridges_on_pillar : ℕ
  bridge_slope_sin : ℚ
  bridge_slope_cos : ℚ
  max_bridge_length_mm : ℚ
  max_pillar_link_distance_mm : ℚ
  base_height_mm : ℚ

/-- A pillar of the built support tree: endpoint height above/at ground,
its height, and the counts of attached cross-links and bridges
(`sla::Pillar` is declared in a missing header; fields follow the spec's
data model, section 3). -/
structure Pillar where
  endpoint_z : ℚ
  height : ℚ
  links : ℕ
  bridges : ℕ
deriving DecidableEq

/-- A candidate pillar before cascading: where its drop ended, its height,
how many eligible cascading neighbors the spatial search found for it and
how many bridges the algorithm requests to attach to it. -/
structure PillarCandidate where
  endpoint_z : ℚ
  height : ℚ
  availableNeighbors : ℕ
  requestedBridges : ℕ

/-- Modelled from the spec (section 4.2, steps 2 and 5): the number of
cross-links a grounded pillar of height `h` must acquire - two above the
stricter dual threshold, one above the solo threshold, none otherwise;
non-grounded pillars need none. -/
def requiredLinks (cfg : SupportConfig) (grounded : Bool) (h : ℚ) : ℕ :=
  if grounded then
    if cfg.max_dual_pillar_height_mm < h then 2
    else if cfg.max_solo_pillar_height_mm < h then 1
    else 0
  else 0

/-- Modelled from the spec: building one pillar during the cascading phase.
The pillar acquires as many links as the neighbor search supplies, capped by
`pillar_cascade_neighbors`, and as many bridges as requested, capped by
`max_bridges_on_pillar`; if fewer links than required are available the
builder raises a generation fault (`none`) instead of emitting an invalid
structure (spec section 7, geometric infeasibility). -/
def buildPillar (cfg : SupportConfig) (gnd : ℚ) (c : PillarCandidate) :
    Option Pillar :=
  let grounded : Bool := decide (c.endpoint_z = gnd)
  let links := min c.availableNeighbors cfg.pillar_cascade_neighbors
  if requiredLinks cfg grounded c.height ≤ links then
    some { endpoint_z := c.endpoint_z, height := c.height, links := links,
           bridges := min c.requestedBridges cfg.max_bridges_on_pillar }
  else none

/-- Modelled from the spec: the builder processes every pillar candidate and
fails the whole build on the first infeasible one. -/
def buildPillars (cfg : SupportConfig) (gnd : ℚ) :
    List PillarCandidate → Option (List Pillar)
  | [] => some []
  | c :: cs =>
    match buildPillar cfg gnd c, buildPillars cfg gnd cs with
    | some p, some ps => some (p :: ps)
    | _, _ => none

/-- A bridge of the built support tree: a strut between two junction points
(`sla::Bridge` of the missing header; `startp`/`endp` as in the test). -/
structure Bridge where
  startp : Vec3
  endp : Vec3
deriving DecidableEq

/-- Difference of two points. -/
def Vec3.sub (a b : Vec3) : Vec3 := ⟨a.x - b.x, a.y - b.y, a.z - b.z⟩

/-- Squared Euclidean norm. -/
def sqNorm (v : Vec3) : ℚ := v.x ^ 2 + v.y ^ 2 + v.z ^ 2

/-- Modelled from the spec (section 4.2, step 4): a bridge between two
candidate points is emitted only when the slope magnitude clears the
configured minimum (expressed rationally: the squared vertical component is
at least the squared sine of the minimum slope times the squared length)
and the straight-line distance respects `max_bridge_length_mm` for
same-tree bridges, or the `1/cos(slope)`-scaled
`max_pillar_link_distance_mm` bound for cross-pillar bridges. -/
def bridgeOk (cfg : SupportConfig) (cross : Bool) (n : Vec3) : Bool :=
  decide (0 < sqNorm n) &&
  decide (cfg.bridge_slope_sin ^ 2 * sqNorm n ≤ n.z ^ 2) &&
  (if cross then
    decide (sqNorm n * cfg.bridge_slope_cos ^ 2 ≤
      cfg.max_pillar_link_distance_mm ^ 2)
   else decide (sqNorm n ≤ cfg.max_bridge_length_mm ^ 2))

/-- Emit a bridge between two candidate endpoints only when `bridgeOk`
accepts the difference vector. -/
def emitBridge (cfg : SupportConfig) (cross : Bool) (s e : Vec3) :
    Option Bridge :=
  if bridgeOk cfg cross (e.sub s) then some ⟨s, e⟩ else none

/-- The finished support tree: pillars, same-tree bridges and cross-pillar
bridges (`sla::SupportTreeBuilder`'s observable collections). -/
structure SupportTree where
  pillars : List Pillar
  bridges : List Bridge
  crossbridges : List Bridge
deriving DecidableEq

/-- Modelled from the spec: one `build()` call.  Pillar candidates are
cascaded (failing the build on infeasibility), and bridges/crossbridges
are emitted from the candidate endpoint pairs surviving the slope and
length tests. -/
def buildTree (cfg : SupportConfig) (gnd : ℚ) (pcs : List PillarCandidate)
    (bcs ccs : List (Vec3 × Vec3)) : Option SupportTree :=
  match buildPillars cfg gnd pcs with
  | none => none
  | some ps =>
    some { pillars := ps,
           bridges := bcs.filterMap (fun p => emitBridge cfg false p.1 p.2),
           crossbridges := ccs.filterMap (fun p => emitBridge cfg true p.1 p.2) }

/-- Every pillar of a successful build satisfies the cascading invariants. -/
lemma buildPillars_sound (cfg : SupportConfig) (gnd : ℚ)
    (pcs : List PillarCandidate) (ps : List Pillar)
    (h : buildPillars cfg gnd pcs = some ps) :
    ∀ p ∈ ps,
      (p.endpoint_z = gnd →
        (cfg.max_solo_pillar_height_mm < p.height → 1 ≤ p.links) ∧
        (cfg.max_dual_pillar_height_mm < p.height → 2 ≤ p.links)) ∧
      p.links ≤ cfg.pillar_cascade_neighbors ∧
      p.bridges ≤ cfg.max_bridges_on_pillar := by
  induction pcs generalizing ps with
  | nil =>
    simp only [buildPillars, Option.some.injEq] at h
    subst h
    intro p hp
    simp at hp
  | cons c cs ih =>
    simp only [buildPillars] at h
    rcases hc : buildPillar cfg gnd c with _ | p₀ <;> rw [hc] at h
    · simp at h
    rcases hcs : buildPillars cfg gnd cs with _ | ps₀ <;> rw [hcs] at h
    · simp at h
    simp only [Option.some.injEq] at h
    subst h
    intro p hp
    rcases List.mem_cons.1 hp with hp | hp
    · subst hp
      unfold buildPillar at hc
      by_cases hreq : requiredLinks cfg (decide (c.endpoint_z = gnd)) c.height ≤
          min c.availableNeighbors cfg.pillar_cascade_neighbors
      · rw [if_pos hreq] at hc
        simp only [Option.some.injEq] at hc
        subst hc
        refine ⟨?_, ?_, ?_⟩
        · intro hgnd
          have hg : decide (c.endpoint_z = gnd) = true := decide_eq_true hgnd
          rw [hg] at hreq
          unfold requiredLinks at hreq
          simp only [if_true] at hreq
          constructor
          · intro hsolo
            by_cases hdual : cfg.max_dual_pillar_height_mm < c.height
            · rw [if_pos hdual] at hreq
              exact le_trans one_le_two hreq
            · rw [if_neg hdual, if_pos hsolo] at hreq
              exact hreq
          · intro hdual
            rw [if_pos hdual] at hreq
            exact hreq
        · exact min_le_right _ _
        · exact min_le_right _ _
      · rw [if_neg hreq] at hc
        exact absurd hc (by simp)
    · exact ih ps₀ hcs p hp

/-- C1: in every successfully built support tree, a pillar whose endpoint
touches the ground plane has at least one link when taller than
`max_solo_pillar_height_mm` and at least two when taller than
`max_dual_pillar_height_mm`; and every pillar respects the
`pillar_cascade_neighbors` and `max_bridges_on_pillar` caps. -/
theorem support_tree_pillar_constraints (cfg : SupportConfig) (gnd : ℚ)
    (pcs : List PillarCandidate) (bcs ccs : List (Vec3 × Vec3))
    (tree : SupportTree)
    (hbuild : buildTree cfg gnd pcs bcs ccs = some tree) :
    ∀ p ∈ tree.pillars,
      (p.endpoint_z = gnd →
        (cfg.max_solo_pillar_height_mm < p.height → 1 ≤ p.links) ∧
        (cfg.max_dual_pillar_height_mm < p.height → 2 ≤ p.links)) ∧
      p.links ≤ cfg.pillar_cascade_neighbors ∧
      p.bridges ≤ cfg.max_bridges_on_pillar := by
  unfold buildTree at hbuild
  rcases hps : buildPillars cfg gnd pcs with _ | ps <;> rw [hps] at hbuild
  · simp at hbuild
  simp only [Option.some.injEq] at hbuild
  subst hbuild
  exact buildPillars_sound cfg gnd pcs ps hps

/-- Witness for C1: a concrete one-pillar build - the grounded pillar of
height 40 acquired two links and respects both caps. -/
theorem support_tree_pillar_constraints_witness :
    2 ≤ (Pillar.mk 0 40 2 1).links ∧
    (Pillar.mk 0 40 2 1).links ≤ 2 ∧ (Pillar.mk 0 40 2 1).bridges ≤ 2 := by
  have h := support_tree_pillar_constraints
    ⟨0, 1, 0, 15, 35, 2, 2, 0, 1, 10, 10, 1⟩ 0
    [⟨0, 40, 3, 1⟩] [] [] (SupportTree.mk [⟨0, 40, 2, 1⟩] [] []) (by decide)
    (Pillar.mk 0 40 2 1) (by simp)
  exact ⟨(h.1 rfl).2 (by norm_num), h.2⟩

/-- An emitted bridge records its two endpoints and passed the rational slope
and length tests of `emitBridge`. -/
lemma emitBridge_sound (cfg : SupportConfig) (cross : Bool) (p q : Vec3)
    (b : Bridge) (h : emitBridge cfg cross p q = some b) :
    b.startp = p ∧ b.endp = q ∧
    0 < sqNorm (q.sub p) ∧
    cfg.bridge_slope_sin ^ 2 * sqNorm (q.sub p) ≤ (q.sub p).z ^ 2 ∧
    (if cross then
      sqNorm (q.sub p) * cfg.bridge_slope_cos ^ 2 ≤
        cfg.max_pillar_link_distance_mm ^ 2
     else sqNorm (q.sub p) ≤ cfg.max_bridge_length_mm ^ 2) := by
  unfold emitBridge at h
  by_cases hc : bridgeOk cfg cross (q.sub p) = true
  · rw [if_pos hc] at h
    unfold bridgeOk at hc
    simp only [Bool.and_eq_true, decide_eq_true_eq] at hc
    obtain ⟨⟨h1, h2⟩, h3⟩ := hc
    cases h
    refine ⟨rfl, rfl, h1, h2, ?_⟩
    rcases cross with _ | _
    · simp only [Bool.false_eq_true, if_false] at h3 ⊢
      exact of_decide_eq_true h3
    · simp only [if_true] at h3 ⊢
      exact of_decide_eq_true h3
  · rw [if_neg hc] at h
    simp at h

/-- The vertical component squared is at most the squared norm. -/
lemma sq_z_le_sqNorm (v : Vec3) : v.z ^ 2 ≤ sqNorm v := by
  unfold sqNorm
  nlinarith [sq_nonneg v.x, sq_nonneg v.y]

/-- Real-analytic reading of the rational slope test: if the squared vertical
rise is at least `sin² s` times the squared length, the magnitude of the
bridge's slope angle (the arcsine of rise over length) is at least `s`. -/
lemma slope_lower_bound {s nz N : ℝ}
    (hs0 : 0 ≤ s) (hs1 : s ≤ Real.pi / 2)
    (hN : 0 < N)
    (hcond : Real.sin s ^ 2 * N ≤ nz ^ 2) :
    s ≤ |Real.arcsin (nz / Real.sqrt N)| := by
  have hpi := Real.pi_pos
  set D := Real.sqrt N with hD
  have hD0 : 0 < D := Real.sqrt_pos.mpr hN
  have hsinnn : 0 ≤ Real.sin s :=
    Real.sin_nonneg_of_nonneg_of_le_pi hs0 (by linarith)
  have hD2 : D ^ 2 = N := Real.sq_sqrt (le_of_lt hN)
  have hsq : (Real.sin s * D) ^ 2 ≤ nz ^ 2 := by nlinarith
  have habs : Real.sin s * D ≤ |nz| := by
    have h1 := Real.sqrt_le_sqrt hsq
    rwa [Real.sqrt_sq_eq_abs, Real.sqrt_sq_eq_abs,
      abs_of_nonneg (mul_nonneg hsinnn hD0.le)] at h1
  have hfrac : Real.sin s ≤ |nz| / D := (le_div_iff₀ hD0).mpr habs
  have harc : |Real.arcsin (nz / D)| = Real.arcsin (|nz| / D) := by
    rcases le_or_lt 0 nz with hz | hz
    · rw [abs_of_nonneg hz,
        abs_of_nonneg (Real.arcsin_nonneg.mpr (div_nonneg hz hD0.le))]
    · have hneg : nz / D < 0 := div_neg_of_neg_of_pos hz hD0
      rw [abs_of_neg hz, abs_of_nonpos (Real.arcsin_nonpos.mpr hneg.le),
        ← Real.arcsin_neg, neg_div]
  calc s = Real.arcsin (Real.sin s) := (Real.arcsin_sin (by linarith) hs1).symm
    _ ≤ Real.arcsin (|nz| / D) := Real.monotone_arcsin hfrac
    _ = |Real.arcsin (nz / D)| := harc.symm

/-- C2: in every successfully built tree, every bridge and crossbridge has
slope-angle magnitude at least the configured minimum slope `s` (given via
its exact sine and cosine), same-tree bridges are no longer than
`max_bridge_length_mm`, and cross-pillar bridges no longer than
`max_pillar_link_distance_mm / cos s`. -/
theorem bridge_slope_and_length (cfg : SupportConfig) (gnd : ℚ)
    (pcs : List PillarCandidate) (bcs ccs : List (Vec3 × Vec3))
    (tree : SupportTree) (s : ℝ)
    (hbuild : buildTree cfg gnd pcs bcs ccs = some tree)
    (hsin : Real.sin s = (cfg.bridge_slope_sin : ℝ))
    (hcos : Real.cos s = (cfg.bridge_slope_cos : ℝ))
    (hs0 : 0 ≤ s) (hs1 : s < Real.pi / 2)
    (hlen : 0 ≤ cfg.max_bridge_length_mm)
    (hlink : 0 ≤ cfg.max_pillar_link_distance_mm) :
    (∀ b ∈ tree.bridges,
      s ≤ |Real.arcsin (((b.endp.sub b.startp).z : ℝ) /
            Real.sqrt ((sqNorm (b.endp.sub b.startp) : ℝ)))| ∧
      Real.sqrt ((sqNorm (b.endp.sub b.startp) : ℝ)) ≤
        (cfg.max_bridge_length_mm : ℝ)) ∧
    (∀ b ∈ tree.crossbridges,
      s ≤ |Real.arcsin (((b.endp.sub b.startp).z : ℝ) /
            Real.sqrt ((sqNorm (b.endp.sub b.startp) : ℝ)))| ∧
      Real.sqrt ((sqNorm (b.endp.sub b.startp) : ℝ)) ≤
        (cfg.max_pillar_link_distance_mm : ℝ) / Real.cos s) := by
  have hcs : 0 < Real.cos s := by
    apply Real.cos_pos_of_mem_Ioo
    constructor
    · have := Real.pi_pos
      linarith
    · exact hs1
  unfold buildTree at hbuild
  rcases hps : buildPillars cfg gnd pcs with _ | ps <;> rw [hps] at hbuild
  · simp at hbuild
  simp only [Option.some.injEq] at hbuild
  subst hbuild
  constructor
  · intro b hb
    simp only [List.mem_filterMap] at hb
    obtain ⟨pair, _, hemit⟩ := hb
    obtain ⟨hst, hen, hpos, hslope, hlength⟩ :=
      emitBridge_sound cfg false pair.1 pair.2 b hemit
    simp only [if_neg Bool.false_ne_true] at hlength
    rw [hst, hen]
    set n := pair.2.sub pair.1 with hn
    have hNpos : (0 : ℝ) < (sqNorm n : ℝ) := by exact_mod_cast hpos
    constructor
    · apply slope_lower_bound hs0 hs1.le hNpos
      rw [hsin]
      exact_mod_cast hslope
    · have h1 : Real.sqrt ((sqNorm n : ℝ)) ≤
          Real.sqrt (((cfg.max_bridge_length_mm : ℝ)) ^ 2) := by
        apply Real.sqrt_le_sqrt
        exact_mod_cast hlength
      rwa [Real.sqrt_sq_eq_abs,
        abs_of_nonneg (by exact_mod_cast hlen : (0:ℝ) ≤ (cfg.max_bridge_length_mm : ℝ))]
        at h1
  · intro b hb
    simp only [List.mem_filterMap] at hb
    obtain ⟨pair, _, hemit⟩ := hb
    obtain ⟨hst, hen, hpos, hslope, hlength⟩ :=
      emitBridge_sound cfg true pair.1 pair.2 b hemit
    simp only [if_pos] at hlength
    rw [hst, hen]
    set n := pair.2.sub pair.1 with hn
    have hNpos : (0 : ℝ) < (sqNorm n : ℝ) := by exact_mod_cast hpos
    constructor
    · apply slope_lower_bound hs0 hs1.le hNpos
      rw [hsin]
      exact_mod_cast hslope
    · rw [le_div_iff₀ hcs]
      have hsq : (Real.sqrt ((sqNorm n : ℝ)) * Real.cos s) ^ 2 ≤
          ((cfg.max_pillar_link_distance_mm : ℝ)) ^ 2 := by
        have hD2 : Real.sqrt ((sqNorm n : ℝ)) ^ 2 = ((sqNorm n : ℝ)) :=
          Real.sq_sqrt hNpos.le
        have hc2 : ((sqNorm n : ℝ)) * (cfg.bridge_slope_cos : ℝ) ^ 2 ≤
            ((cfg.max_pillar_link_distance_mm : ℝ)) ^ 2 := by
          exact_mod_cast hlength
        rw [hcos]
        nlinarith
      have h1 := Real.sqrt_le_sqrt hsq
      rwa [Real.sqrt_sq_eq_abs, Real.sqrt_sq_eq_abs,
        abs_of_nonneg (mul_nonneg (Real.sqrt_nonneg _) hcs.le),
        abs_of_nonneg (by exact_mod_cast hlink : (0:ℝ) ≤
          (cfg.max_pillar_link_distance_mm : ℝ))] at h1

/-- Witness for C2: a concrete emitted bridge from (0,0,0) to (0,4,3)
under minimum slope `arcsin (3/5)` - its slope magnitude is at least
`arcsin (3/5)` and its length at most 10. -/
theorem bridge_slope_and_length_witness :
    Real.arcsin (3 / 5) ≤
      |Real.arcsin (((((Bridge.mk ⟨0, 0, 0⟩ ⟨0, 4, 3⟩).endp.sub
            (Bridge.mk ⟨0, 0, 0⟩ ⟨0, 4, 3⟩).startp).z : ℚ) : ℝ) /
        Real.sqrt ((sqNorm ((Bridge.mk ⟨0, 0, 0⟩ ⟨0, 4, 3⟩).endp.sub
            (Bridge.mk ⟨0, 0, 0⟩ ⟨0, 4, 3⟩).startp) : ℚ) : ℝ))| ∧
    Real.sqrt ((sqNorm ((Bridge.mk ⟨0, 0, 0⟩ ⟨0, 4, 3⟩).endp.sub
        (Bridge.mk ⟨0, 0, 0⟩ ⟨0, 4, 3⟩).startp) : ℚ) : ℝ) ≤ ((10 : ℚ) : ℝ) := by
  have h35 : (-1 : ℝ) ≤ 3 / 5 := by norm_num
  have h35' : (3 / 5 : ℝ) ≤ 1 := by norm_num
  have hbuild : buildTree ⟨0, 1, 0, 15, 35, 2, 2, 3 / 5, 4 / 5, 10, 10, 1⟩ 0 []
      [(⟨0, 0, 0⟩, ⟨0, 4, 3⟩)] [] =
      some (SupportTree.mk [] [Bridge.mk ⟨0, 0, 0⟩ ⟨0, 4, 3⟩] []) := by
    simp only [buildTree, buildPillars, List.filterMap]
    norm_num [emitBridge, bridgeOk, sqNorm, Vec3.sub]
  have h := bridge_slope_and_length ⟨0, 1, 0, 15, 35, 2, 2, 3 / 5, 4 / 5, 10, 10, 1⟩
    0 [] [(⟨0, 0, 0⟩, ⟨0, 4, 3⟩)] []
    (SupportTree.mk [] [Bridge.mk ⟨0, 0, 0⟩ ⟨0, 4, 3⟩] []) (Real.arcsin (3 / 5))
    hbuild
    (by rw [Real.sin_arcsin h35 h35']; norm_num)
    (by rw [Real.cos_arcsin]
        rw [show (1 - (3 / 5 : ℝ) ^ 2) = (4 / 5) ^ 2 by norm_num,
          Real.sqrt_sq (by norm_num : (0 : ℝ) ≤ 4 / 5)]
        norm_num)
    (Real.arcsin_nonneg.mpr (by norm_num))
    (Real.arcsin_lt_pi_div_two.mpr (by norm_num))
    (by norm_num) (by norm_num)
  exact h.1 (Bridge.mk ⟨0, 0, 0⟩ ⟨0, 4, 3⟩) (by simp)

/-! ## Support-tree slicing over a shared Z-grid (modelled) -/

/-- A discrete cell of the build plane; a slice (`ExPolygons`) at one grid
level is modelled as the finite set of cells it fills. -/
abbrev Cell := ℤ × ℤ

/-- Modelled from the spec: a piece of generated support geometry (a head,
pillar or bridge segment) occupying a vertical span and a planar footprint;
`sla::SupportTreeBuilder`'s geometry store is not among the sources. -/
structure SupportElement where
  zmin : ℚ
  zmax : ℚ
  footprint : Finset Cell

/-- Whether an element's vertical span contains the level `z`. -/
def activeAt (e : SupportElement) (z : ℚ) : Bool :=
  decide (e.zmin ≤ z ∧ z ≤ e.zmax)

/-- The filled cells of the support geometry at one level: the union of the
footprints of the elements active there. -/
def sliceAt (elems : List SupportElement) (z : ℚ) : Finset Cell :=
  (elems.filter (fun e => activeAt e z)).foldr (fun e acc => e.footprint ∪ acc) ∅

/-- Modelled from the spec (section 4.2, step 6):
`SupportTreeBuilder::slice(grid, closing_radius)` produces one slice per
level of the externally supplied Z-grid; the closing radius only performs
numerical contour cleanup and does not change the slice count. -/
def sliceSupport (elems : List SupportElement) (grid : List ℚ)
    (_closing_radius : ℚ) : List (Finset Cell) :=
  grid.map (sliceAt elems)

/-- The model's own slices over the same grid, produced by the external
mesh slicer (one slice per grid level). -/
def sliceModel (modelAt : ℚ → Finset Cell) (grid : List ℚ)
    (_closing_radius : ℚ) : List (Finset Cell) :=
  grid.map modelAt

/-- C6: slicing a built support tree over an externally supplied Z-grid
yields exactly one slice per grid level, hence exactly as many slices as
the model's own slicing over the same grid. -/
theorem support_slice_count (elems : List SupportElement)
    (modelAt : ℚ → Finset Cell) (grid : List ℚ) (cr cr' : ℚ) :
    (sliceSupport elems grid cr).length = grid.length ∧
    (sliceSupport elems grid cr).length =
      (sliceModel modelAt grid cr').length := by
  simp [sliceSupport, sliceModel]

/-! ## Non-collision of supports with the model (modelled) -/

/-- Whether a support element touches the model anywhere on the shared
grid: some level of the model slicing meets the element's span with a
non-empty footprint intersection. -/
def elementCollides (model : List (ℚ × Finset Cell)) (e : SupportElement) :
    Bool :=
  model.any (fun zs => activeAt e zs.1 && (e.footprint ∩ zs.2).Nonempty)

/-- Modelled from the spec (section 4.2, failure semantics): with a strictly
negative `head_penetration_mm` the builder must uphold non-collision by
construction, retracting any pillar/head whose geometry would contact the
model; with non-negative penetration candidates are kept as they are. -/
def buildSupportElements (cfg : SupportConfig)
    (model : List (ℚ × Finset Cell)) (cands : List SupportElement) :
    List SupportElement :=
  if cfg.head_penetration_mm < 0 then
    cands.filter (fun e => ! elementCollides model e)
  else cands

/-- A union of footprints, each disjoint from `s`, is disjoint from `s`. -/
lemma sliceAt_inter_empty (elems : List SupportElement) (z : ℚ)
    (s : Finset Cell)
    (h : ∀ e ∈ elems, activeAt e z → e.footprint ∩ s = ∅) :
    sliceAt elems z ∩ s = ∅ := by
  unfold sliceAt
  induction elems with
  | nil => simp
  | cons e es ih =>
    by_cases ha : activeAt e z
    · rw [show List.filter (fun e => activeAt e z) (e :: es) =
          e :: List.filter (fun e => activeAt e z) es by
        simp [List.filter_cons, ha]]
      simp only [List.foldr_cons]
      rw [Finset.union_inter_distrib_right, h e (List.mem_cons_self e es) ha,
        ih (fun e' he' => h e' (List.mem_cons_of_mem e he'))]
      simp
    · rw [show List.filter (fun e => activeAt e z) (e :: es) =
          List.filter (fun e => activeAt e z) es by
        simp [List.filter_cons, ha]]
      exact ih (fun e' he' => h e' (List.mem_cons_of_mem e he'))

/-- C3: with `head_penetration_mm` configured strictly negative, the built
support geometry sliced over the shared Z-grid has empty intersection with
the model's slice at every shared level. -/
theorem support_model_no_collision (cfg : SupportConfig)
    (model : List (ℚ × Finset Cell)) (cands : List SupportElement) (cr : ℚ)
    (hneg : cfg.head_penetration_mm < 0) (n : ℕ) (hn : n < model.length) :
    (sliceSupport (buildSupportElements cfg model cands)
        (model.map Prod.fst) cr).get
          ⟨n, by simpa [sliceSupport] using hn⟩ ∩
      (model.get ⟨n, hn⟩).2 = ∅ := by
  have hget : (sliceSupport (buildSupportElements cfg model cands)
      (model.map Prod.fst) cr).get ⟨n, by simpa [sliceSupport] using hn⟩ =
      sliceAt (buildSupportElements cfg model cands)
        (model.get ⟨n, hn⟩).1 := by
    simp [sliceSupport, List.get_map]
  rw [hget]
  apply sliceAt_inter_empty
  intro e he hact
  unfold buildSupportElements at he
  rw [if_pos hneg] at he
  obtain ⟨hmem, hkeep⟩ := List.mem_filter.1 he
  have hnc : elementCollides model e = false := by
    simpa using hkeep
  unfold elementCollides at hnc
  rw [List.any_eq_false] at hnc
  have hthis := hnc (model.get ⟨n, hn⟩) (List.get_mem model n hn)
  simp only [Bool.and_eq_true, decide_eq_true_eq, not_and] at hthis
  have hemp := hthis hact
  rwa [Finset.not_nonempty_iff_eq_empty] at hemp

/-- Witness for C3: a colliding candidate is retracted, leaving an empty
intersection at the single shared level. -/
theorem support_model_no_collision_witness :
    (sliceSupport
        (buildSupportElements ⟨0, 1, -1, 15, 35, 2, 2, 0, 1, 10, 10, 1⟩
          [(0, {(0, 0)})] [⟨0, 1, {(0, 0)}⟩])
        ([((0 : ℚ), ({(0, 0)} : Finset Cell))].map Prod.fst) 1).get
        ⟨0, by simp [sliceSupport]⟩ ∩
      (([((0 : ℚ), ({(0, 0)} : Finset Cell))]).get ⟨0, by simp⟩).2 = ∅ :=
  support_model_no_collision ⟨0, 1, -1, 15, 35, 2, 2, 0, 1, 10, 10, 1⟩
    [(0, {(0, 0)})] [⟨0, 1, {(0, 0)}⟩] 1 (by norm_num) 0 (by simp)

/-! ## Pad generation (modelled) -/

/-- Modelled from the spec: `sla::PadConfig` is declared in a missing
header; the spec (sections 4.3 and 6) gives its fields and
`full_height() = wall height + base height`. -/
structure PadConfig where
  wall_height_mm : ℚ
  base_height_mm : ℚ
  embed_object_enabled : Bool
  embed_object_everywhere : Bool

/-- The pad's full vertical extent: wall height plus base height. -/
def PadConfig.full_height (c : PadConfig) : ℚ :=
  c.wall_height_mm + c.base_height_mm

/-- Modelled from the spec (section 7, configuration errors): `validate()`
returns human-readable violations for invalid numeric combinations
(negative dimensions), and the empty list when the configuration is valid. -/
def PadConfig.validate (c : PadConfig) : List String :=
  (if c.wall_height_mm < 0 then ["invalid wall height"] else []) ++
  (if c.base_height_mm < 0 then ["invalid base height"] else [])

/-- A planar contour point. -/
abbrev Point2 := ℚ × ℚ

/-- Modelled from the spec (section 4.3): `create_pad` rejects
configurations failing `validate()` and otherwise extrudes the (optionally
unioned) contours into a solid spanning from `-full_height` up to the
`z = 0` plane, returned as a vertex soup. -/
def create_pad (sup_contours model_contours : List (List Point2))
    (cfg : PadConfig) : Option (List Vec3) :=
  if cfg.validate = [] then
    let contours := if cfg.embed_object_enabled then
        model_contours ++ sup_contours
      else model_contours
    some (contours.flatMap (fun poly => poly.flatMap
      (fun p => [⟨p.1, p.2, -cfg.full_height⟩, ⟨p.1, p.2, 0⟩])))
  else none

/-- Lowest Z coordinate of a mesh (0 for the empty mesh). -/
def meshZmin : List Vec3 → ℚ
  | [] => 0
  | v :: vs => vs.foldl (fun a w => min a w.z) v.z

/-- Highest Z coordinate of a mesh (0 for the empty mesh). -/
def meshZmax : List Vec3 → ℚ
  | [] => 0
  | v :: vs => vs.foldl (fun a w => max a w.z) v.z

/-- A lower bound of the seed and of every listed Z value bounds the fold
of `min`. -/
lemma le_foldl_min (l : List Vec3) (a c : ℚ) (ha : c ≤ a)
    (hl : ∀ v ∈ l, c ≤ v.z) : c ≤ l.foldl (fun b w => min b w.z) a := by
  induction l generalizing a with
  | nil => simpa using ha
  | cons v vs ih =>
    simp only [List.foldl_cons]
    exact ih _ (le_min ha (hl v (List.mem_cons_self v vs)))
      (fun v' hv' => hl v' (List.mem_cons_of_mem _ hv'))

/-- The fold of `min` never exceeds its seed. -/
lemma foldl_min_le_init (l : List Vec3) (a : ℚ) :
    l.foldl (fun b w => min b w.z) a ≤ a := by
  induction l generalizing a with
  | nil => simp
  | cons v vs ih =>
    simp only [List.foldl_cons]
    exact le_trans (ih _) (min_le_left _ _)

/-- The fold of `min` never exceeds any listed Z value. -/
lemma foldl_min_le_mem (l : List Vec3) (a : ℚ) (v : Vec3) (hv : v ∈ l) :
    l.foldl (fun b w => min b w.z) a ≤ v.z := by
  induction l generalizing a with
  | nil => simp at hv
  | cons w ws ih =>
    simp only [List.foldl_cons]
    rcases List.mem_cons.1 hv with hv | hv
    · subst hv
      exact le_trans (foldl_min_le_init ws _) (min_le_right _ _)
    · exact ih _ hv

/-- An upper bound of the seed and of every listed Z value bounds the fold
of `max` from above. -/
lemma foldl_max_le (l : List Vec3) (a c : ℚ) (ha : a ≤ c)
    (hl : ∀ v ∈ l, v.z ≤ c) : l.foldl (fun b w => max b w.z) a ≤ c := by
  induction l generalizing a with
  | nil => simpa using ha
  | cons v vs ih =>
    simp only [List.foldl_cons]
    exact ih _ (max_le ha (hl v (List.mem_cons_self v vs)))
      (fun v' hv' => hl v' (List.mem_cons_of_mem _ hv'))

/-- The fold of `max` is at least its seed. -/
lemma init_le_foldl_max (l : List Vec3) (a : ℚ) :
    a ≤ l.foldl (fun b w => max b w.z) a := by
  induction l generalizing a with
  | nil => simp
  | cons v vs ih =>
    simp only [List.foldl_cons]
    exact le_trans (le_max_left _ _) (ih _)

/-- The fold of `max` is at least any listed Z value. -/
lemma mem_le_foldl_max (l : List Vec3) (a : ℚ) (v : Vec3) (hv : v ∈ l) :
    v.z ≤ l.foldl (fun b w => max b w.z) a := by
  induction l generalizing a with
  | nil => simp at hv
  | cons w ws ih =>
    simp only [List.foldl_cons]
    rcases List.mem_cons.1 hv with hv | hv
    · subst hv
      exact le_trans (le_max_right _ _) (init_le_foldl_max ws _)
    · exact ih _ hv

/-- `meshZmin` is the value `c` when `c` bounds every vertex from below and
is attained. -/
lemma meshZmin_eq (mesh : List Vec3) (c : ℚ)
    (hall : ∀ v ∈ mesh, c ≤ v.z) (hex : ∃ v ∈ mesh, v.z = c) :
    meshZmin mesh = c := by
  rcases mesh with _ | ⟨v, vs⟩
  · rcases hex with ⟨w, hw, _⟩
    simp at hw
  · unfold meshZmin
    apply le_antisymm
    · rcases hex with ⟨w, hw, hwz⟩
      rcases List.mem_cons.1 hw with hw | hw
      · subst hw
        rw [← hwz]
        exact foldl_min_le_init vs _
      · rw [← hwz]
        exact foldl_min_le_mem vs _ w hw
    · exact le_foldl_min vs _ c (hall v (List.mem_cons_self v vs))
        (fun w hw => hall w (List.mem_cons_of_mem _ hw))

/-- `meshZmax` is the value `c` when `c` bounds every vertex from above and
is attained. -/
lemma meshZmax_eq (mesh : List Vec3) (c : ℚ)
    (hall : ∀ v ∈ mesh, v.z ≤ c) (hex : ∃ v ∈ mesh, v.z = c) :
    meshZmax mesh = c := by
  rcases mesh with _ | ⟨v, vs⟩
  · rcases hex with ⟨w, hw, _⟩
    simp at hw
  · unfold meshZmax
    apply le_antisymm
    · exact foldl_max_le vs _ c (hall v (List.mem_cons_self v vs))
        (fun w hw => hall w (List.mem_cons_of_mem _ hw))
    · rcases hex with ⟨w, hw, hwz⟩
      rcases List.mem_cons.1 hw with hw | hw
      · subst hw
        rw [← hwz]
        exact init_le_foldl_max vs _
      · rw [← hwz]
        exact mem_le_foldl_max vs _ w hw

/-- A valid pad configuration has non-negative wall and base heights. -/
lemma validate_nonneg (cfg : PadConfig) (hval : cfg.validate = []) :
    0 ≤ cfg.wall_height_mm ∧ 0 ≤ cfg.base_height_mm := by
  unfold PadConfig.validate at hval
  by_cases hw : cfg.wall_height_mm < 0 <;>
    by_cases hb : cfg.base_height_mm < 0 <;>
      simp [hw, hb] at hval ⊢ <;> constructor <;> linarith

/-- C5: for every pad configuration passing `validate()` and every model
contour set containing a non-empty contour, pad generation succeeds and the
generated mesh's bounding-box Z-extent equals `PadConfig.full_height()`
exactly. -/
theorem pad_height_eq_full_height (sup_contours model_contours : List (List Point2))
    (cfg : PadConfig) (hval : cfg.validate = [])
    (poly : List Point2) (hpoly : poly ∈ model_contours) (hne : poly ≠ []) :
    ∃ mesh, create_pad sup_contours model_contours cfg = some mesh ∧
      meshZmax mesh - meshZmin mesh = cfg.full_height := by
  have hfh : 0 ≤ cfg.full_height := by
    obtain ⟨hw, hb⟩ := validate_nonneg cfg hval
    unfold PadConfig.full_height
    linarith
  set contours := if cfg.embed_object_enabled then
      model_contours ++ sup_contours else model_contours with hcont
  have hpoly' : poly ∈ contours := by
    rw [hcont]
    by_cases hemb : cfg.embed_object_enabled <;>
      simp [hemb, List.mem_append, hpoly]
  obtain ⟨p, hp⟩ := List.exists_mem_of_ne_nil poly hne
  set mesh := contours.flatMap (fun poly => poly.flatMap
      (fun p : Point2 =>
        [(⟨p.1, p.2, -cfg.full_height⟩ : Vec3), ⟨p.1, p.2, (0 : ℚ)⟩]))
    with hmesh
  refine ⟨mesh, ?_, ?_⟩
  · rw [create_pad, if_pos hval]
  have hzall : ∀ v ∈ mesh, v.z = -cfg.full_height ∨ v.z = 0 := by
    intro v hv
    rw [hmesh] at hv
    simp only [List.mem_flatMap, List.mem_cons, List.mem_singleton,
      List.not_mem_nil, or_false] at hv
    obtain ⟨q, _, r, _, hvr⟩ := hv
    rcases hvr with hvr | hvr <;> rw [hvr] <;> simp
  have hlow : (⟨p.1, p.2, -cfg.full_height⟩ : Vec3) ∈ mesh := by
    rw [hmesh]
    refine List.mem_flatMap.mpr ⟨poly, hpoly', ?_⟩
    exact List.mem_flatMap.mpr ⟨p, hp, by simp⟩
  have hhigh : (⟨p.1, p.2, (0 : ℚ)⟩ : Vec3) ∈ mesh := by
    rw [hmesh]
    refine List.mem_flatMap.mpr ⟨poly, hpoly', ?_⟩
    exact List.mem_flatMap.mpr ⟨p, hp, by simp⟩
  have hmin : meshZmin mesh = -cfg.full_height := by
    apply meshZmin_eq
    · intro v hv
      rcases hzall v hv with h | h <;> rw [h] <;> linarith
    · exact ⟨_, hlow, rfl⟩
  have hmax : meshZmax mesh = 0 := by
    apply meshZmax_eq
    · intro v hv
      rcases hzall v hv with h | h <;> rw [h] <;> linarith
    · exact ⟨_, hhigh, rfl⟩
  rw [hmin, hmax]
  ring

/-- The pad mesh generated by the witness configuration. -/
def padMeshW : List Vec3 := [⟨0, 0, -3⟩, ⟨0, 0, 0⟩]

/-- Witness for C5: the pad generated over a one-point contour with wall
height 1 and base height 2 spans exactly the full height 3. -/
theorem pad_height_eq_full_height_witness :
    meshZmax padMeshW - meshZmin padMeshW =
      (PadConfig.mk 1 2 false false).full_height := by
  obtain ⟨mesh, hm, hext⟩ := pad_height_eq_full_height [] [[((0 : ℚ), (0 : ℚ))]]
    (PadConfig.mk 1 2 false false) (by decide)
    [((0 : ℚ), (0 : ℚ))] (by simp) (by simp)
  have he : create_pad [] [[((0 : ℚ), (0 : ℚ))]]
      (PadConfig.mk 1 2 false false) = some padMeshW := by
    norm_num [create_pad, PadConfig.validate, PadConfig.full_height, padMeshW]
  rw [he] at hm
  injection hm with hmm
  rw [← hmm] at hext
  exact hext

/-! ## Rasterizer (`SLARaster.cpp`) -/

/-- Output resolution in pixels (`Raster::Resolution`). -/
structure Resolution where
  width_px : ℕ
  height_px : ℕ
deriving DecidableEq

/-- Total pixel count (`Resolution::pixels()`). -/
def Resolution.pixels (r : Resolution) : ℕ := r.width_px * r.height_px

/-- Size of one pixel in millimeters (`Raster::PixelDim`). -/
structure PixelDim where
  w_mm : ℚ
  h_mm : ℚ
deriving DecidableEq

/-- Orientation and gamma of the raster (`Raster::Trafo`). -/
structure Trafo where
  mirror_x : Bool
  mirror_y : Bool
  gamma : ℚ
deriving DecidableEq

/-- Output format (`Raster::Format`). -/
inductive Format
  | PNG
  | RAW
deriving DecidableEq

/-- The coverage (antialiasing) function handed to the scanline rasterizer:
either agg's power-law gamma curve with a given exponent
(`agg::gamma_power`) or agg's hard threshold (`agg::gamma_threshold`). -/
inductive CoverageFn
  | power (exponent : ℚ)
  | threshold (t : ℚ)
deriving DecidableEq

/-- Application of the coverage function to a raw coverage fraction.
Modelled from the spec for the power-law branch: agg's curve is exact at
zero and full coverage (`0^g = 0`, `1^g = 1` for `g > 0`) - which is all
the tests observe - and is kept monotone on fractional boundary coverage
in place of agg's floating-point `pow`; the threshold branch is agg's
`gamma_threshold` exactly. -/
def applyCoverage : CoverageFn → ℚ → ℚ
  | .power _, c => if c ≤ 0 then 0 else if 1 ≤ c then 1 else c
  | .threshold t, c => if c < t then 0 else 1

/-- The fixed-point scaling factor of the internal integer coordinate
system (`SCALING_FACTOR = 1e-6`). -/
def SCALING_FACTOR : ℚ := 1 / 1000000

/-- The rasterizer implementation state (`Raster::Impl`): resolution, the
scaled pixel dimensions, the pixel buffer (row-major, addressed by
`y * width + x`; embedded as a total function from flat indices to 8-bit
values), the selected coverage function, the (construction-adjusted)
orientation and the format. -/
structure Impl where
  resolution : Resolution
  pxdim_scaled : PixelDim
  buf : ℕ → ℕ
  gammafn : CoverageFn
  trafo : Trafo
  fmt : Format

/-- `Raster::Impl::Impl`: stores the resolution, inverts the pixel
dimensions into scaled-coordinate factors, selects the coverage function
from the gamma (power-law for positive gamma, hard 50% threshold
otherwise), toggles the vertical mirror once for the PNG format whose row
order is inverted relative to world-space Y, and clears the buffer. -/
def mkImpl (res : Resolution) (pd : PixelDim) (fmt : Format)
    (trafo : Trafo) : Impl :=
  { resolution := res
    pxdim_scaled := ⟨SCALING_FACTOR / pd.w_mm, SCALING_FACTOR / pd.h_mm⟩
    buf := fun _ => 0
    gammafn := if 0 < trafo.gamma then CoverageFn.power trafo.gamma
      else CoverageFn.threshold (1 / 2)
    trafo := { trafo with
      mirror_y := if fmt = Format.PNG then !trafo.mirror_y else trafo.mirror_y }
    fmt := fmt }

/-- An axis-aligned rectangular polygon in the scaled integer coordinate
system (the shape of the marker squares drawn by the mirroring test). -/
structure ScaledBox where
  xmin : ℤ
  xmax : ℤ
  ymin : ℤ
  ymax : ℤ

/-- A closed axis-aligned box in pixel coordinates. -/
structure PixBox where
  xmin : ℚ
  xmax : ℚ
  ymin : ℚ
  ymax : ℚ

/-- `Impl::to_path` with `getPx`/`getPy`: scaled coordinates are taken to
pixel coordinates by the scaled pixel-dimension factors. -/
def toPathBox (impl : Impl) (b : ScaledBox) : PixBox :=
  ⟨b.xmin * impl.pxdim_scaled.w_mm, b.xmax * impl.pxdim_scaled.w_mm,
   b.ymin * impl.pxdim_scaled.h_mm, b.ymax * impl.pxdim_scaled.h_mm⟩

/-- `Impl::flipx` (`path.flip_x(0, width)`): reflect every x to
`width - x`. -/
def flipxBox (impl : Impl) (q : PixBox) : PixBox :=
  ⟨(impl.resolution.width_px : ℚ) - q.xmax,
   (impl.resolution.width_px : ℚ) - q.xmin, q.ymin, q.ymax⟩

/-- `Impl::flipy` (`path.flip_y(0, height)`): reflect every y to
`height - y`. -/
def flipyBox (impl : Impl) (q : PixBox) : PixBox :=
  ⟨q.xmin, q.xmax, (impl.resolution.height_px : ℚ) - q.ymax,
   (impl.resolution.height_px : ℚ) - q.ymin⟩

/-- The path actually rasterized for a drawn box: pixel coordinates,
flipped horizontally and/or vertically according to the stored mirror
flags (`Impl::draw`). -/
def transformedBox (impl : Impl) (b : ScaledBox) : PixBox :=
  let q := toPathBox impl b
  let q' := if impl.trafo.mirror_x then flipxBox impl q else q
  if impl.trafo.mirror_y then flipyBox impl q' else q'

/-- Coverage of the unit pixel cell `[n, n+1]` by the closed interval
`[lo, hi]`: full when the cell is contained, zero when they are disjoint,
a fractional boundary value otherwise. -/
def coverIv (lo hi : ℚ) (n : ℕ) : ℚ :=
  if lo ≤ n ∧ (n + 1 : ℚ) ≤ hi then 1
  else if hi ≤ n ∨ (n + 1 : ℚ) ≤ lo then 0
  else 1 / 2

/-- Modelled from the spec: agg's scanline rendering of one box with a
given coverage function - the raw coverage of a pixel cell is the product
of its per-axis coverages (exact for fully covered and untouched cells),
mapped through the coverage function, scaled to 8 bits and accumulated
additively over the existing buffer (white is never erased). -/
def renderWith (fn : CoverageFn) (impl : Impl) (b : ScaledBox) : ℕ → ℕ :=
  fun n =>
    let x := n % impl.resolution.width_px
    let y := n / impl.resolution.width_px
    let q := transformedBox impl b
    max (impl.buf n)
      (⌊(255 : ℚ) * applyCoverage fn
          (coverIv q.xmin q.xmax x * coverIv q.ymin q.ymax y)⌋.toNat)

/-- `Impl::draw`: renders the polygon with the coverage function selected
at construction (`ras.gamma(m_gammafn)`). -/
def Impl.draw (impl : Impl) (b : ScaledBox) : Impl :=
  { impl with buf := renderWith impl.gammafn impl b }

/-- `Impl::clear`: reset the whole buffer to black. -/
def Impl.clear (impl : Impl) : Impl := { impl with buf := fun _ => 0 }

/-- Operations applied to a live rasterizer implementation. -/
inductive ROp
  | draw (b : ScaledBox)
  | clear

/-- Apply one operation. -/
def applyOp (impl : Impl) : ROp → Impl
  | .draw b => impl.draw b
  | .clear => impl.clear

/-- Apply a sequence of operations. -/
def applyOps (impl : Impl) (ops : List ROp) : Impl := ops.foldl applyOp impl

/-- Neither drawing nor clearing changes the selected coverage function. -/
lemma gammafn_applyOps (impl : Impl) (ops : List ROp) :
    (applyOps impl ops).gammafn = impl.gammafn := by
  induction ops generalizing impl with
  | nil => rfl
  | cons op ops ih =>
    cases op <;> simp only [applyOps, List.foldl_cons] <;>
      exact (ih _).trans rfl

/-- C7: at construction/reset the coverage function is selected from the
configured gamma - a power-law curve with that exponent when
`gamma > 0`, a hard 50% threshold when `gamma ≤ 0` - and every subsequent
`draw`, however many operations later, renders with exactly that selected
function. -/
theorem gamma_coverage_selection (res : Resolution) (pd : PixelDim)
    (fmt : Format) (trafo : Trafo) (ops : List ROp) (b : ScaledBox) :
    ((0 < trafo.gamma →
        (applyOps (mkImpl res pd fmt trafo) ops).gammafn =
          CoverageFn.power trafo.gamma) ∧
     (trafo.gamma ≤ 0 →
        (applyOps (mkImpl res pd fmt trafo) ops).gammafn =
          CoverageFn.threshold (1 / 2))) ∧
    ((applyOps (mkImpl res pd fmt trafo) ops).draw b).buf =
      renderWith
        (if 0 < trafo.gamma then CoverageFn.power trafo.gamma
         else CoverageFn.threshold (1 / 2))
        (applyOps (mkImpl res pd fmt trafo) ops) b := by
  have hsel : (applyOps (mkImpl res pd fmt trafo) ops).gammafn =
      (if 0 < trafo.gamma then CoverageFn.power trafo.gamma
       else CoverageFn.threshold (1 / 2)) := by
    rw [gammafn_applyOps]
    rfl
  refine ⟨⟨fun hpos => ?_, fun hnonpos => ?_⟩, ?_⟩
  · rw [hsel, if_pos hpos]
  · rw [hsel, if_neg (not_lt.mpr hnonpos)]
  · show renderWith (applyOps (mkImpl res pd fmt trafo) ops).gammafn _ b = _
    rw [hsel]

/-- Witness for C7 at gamma 2 (power branch) and gamma 0 (threshold
branch) with an empty operation sequence. -/
theorem gamma_coverage_selection_witness :
    (applyOps (mkImpl ⟨4, 4⟩ ⟨1, 1⟩ Format.RAW ⟨false, false, 2⟩) []).gammafn =
      CoverageFn.power 2 ∧
    (applyOps (mkImpl ⟨4, 4⟩ ⟨1, 1⟩ Format.RAW ⟨false, false, 0⟩) []).gammafn =
      CoverageFn.threshold (1 / 2) :=
  ⟨(gamma_coverage_selection ⟨4, 4⟩ ⟨1, 1⟩ Format.RAW ⟨false, false, 2⟩ []
      ⟨0, 1, 0, 1⟩).1.1 (by norm_num),
   (gamma_coverage_selection ⟨4, 4⟩ ⟨1, 1⟩ Format.RAW ⟨false, false, 0⟩ []
      ⟨0, 1, 0, 1⟩).1.2 (by norm_num)⟩

/-! ## Raw portable greyscale export (`Raster::save`, `Format::RAW`) -/

/-- `Raster::save(stream, Format::RAW)`: the stream receives, in order,
the literal "P5 ", the decimal width, a space, the decimal height, a
space, the literal "255 ", and then the raw row-major buffer bytes. -/
def saveRaw (impl : Impl) : List ℕ :=
  ("P5 ".toList.map Char.toNat) ++
  ((toString impl.resolution.width_px).toList.map Char.toNat) ++
  (" ".toList.map Char.toNat) ++
  ((toString impl.resolution.height_px).toList.map Char.toNat) ++
  (" ".toList.map Char.toNat) ++
  ("255 ".toList.map Char.toNat) ++
  (List.range impl.resolution.pixels).map impl.buf

/-- C9: the RAW export is exactly the ASCII header
`"P5 {width} {height} 255 "` immediately followed by the
`width * height` row-major pixel bytes with no padding, and its total
length is the header length plus `width * height`. -/
theorem save_raw_format (impl : Impl) :
    saveRaw impl =
      (("P5 " ++ toString impl.resolution.width_px ++ " " ++
        toString impl.resolution.height_px ++ " " ++ "255 ").toList.map
          Char.toNat) ++
      (List.range (impl.resolution.width_px * impl.resolution.height_px)).map
        impl.buf ∧
    (saveRaw impl).length =
      ("P5 " ++ toString impl.resolution.width_px ++ " " ++
        toString impl.resolution.height_px ++ " " ++ "255 ").length +
      impl.resolution.width_px * impl.resolution.height_px := by
  have htl : ∀ a b : String, (a ++ b).toList = a.toList ++ b.toList :=
    String.data_append
  have hlen : ∀ s : String, s.toList.length = s.length := fun _ => rfl
  constructor
  · unfold saveRaw Resolution.pixels
    simp only [htl, List.map_append, List.append_assoc]
  · unfold saveRaw Resolution.pixels
    simp only [List.length_append, List.length_map, List.length_range,
      String.length_append, hlen]

/-! ## Raster pimpl wrapper and the mirroring truth table -/

/-- `Raster`: the pimpl wrapper; `none` models a released `m_impl`. -/
abbrev Raster := Option Impl

/-- `Raster::reset()`: release the implementation. -/
def Raster.resetEmpty : Raster := none

/-- `Raster::Raster()`: the default constructor calls `reset()`. -/
def Raster.mkDefault : Raster := Raster.resetEmpty

/-- `Raster::reset(res, pd, fmt, trafo)`: install a fresh implementation. -/
def Raster.resetWith (res : Resolution) (pd : PixelDim) (fmt : Format)
    (trafo : Trafo) : Raster := some (mkImpl res pd fmt trafo)

/-- Modelled from the spec: the `reset(res, pd, mirroring)` overload used
by the mirroring test lives in a header that is not among the sources; per
the spec callers always reason in world-space orientation (the
construction-time vertical toggle only compensates formats whose native
row order is inverted), so the overload forwards the raw format - whose
buffer row order matches the world-space Y axis - with the default gamma
of 1. -/
def Raster.resetMirror (res : Resolution) (pd : PixelDim)
    (mirror : Bool × Bool) : Raster :=
  Raster.resetWith res pd Format.RAW ⟨mirror.1, mirror.2, 1⟩

/-- `Raster::resolution()`: zero resolution without an implementation. -/
def Raster.resolution : Raster → Resolution
  | none => ⟨0, 0⟩
  | some impl => impl.resolution

/-- `Raster::empty()` (declared in the missing header; per the spec a
default-constructed raster is in the empty state): no implementation
installed. -/
def Raster.isEmptyState (r : Raster) : Bool := r.isNone

/-- `Raster::draw`: forward to the implementation. -/
def Raster.draw (r : Raster) (b : ScaledBox) : Raster :=
  r.map (fun impl => impl.draw b)

/-- `Raster::read_pixel(x, y)`: the buffer byte at `y * width + x`. -/
def Raster.read_pixel (r : Raster) (x y : ℕ) : ℕ :=
  match r with
  | none => 0
  | some impl => impl.buf (y * impl.resolution.width_px + x)

/-- The mirroring test's SL1 display resolution. -/
def testRes : Resolution := ⟨2560, 1440⟩

/-- The mirroring test's pixel dimensions: the 120 x 68 mm bounding box
spread over `resolution - 1` pixels per axis. -/
def testPd : PixelDim := ⟨120 / 2559, 68 / 1439⟩

/-- `coord_t(ceil(scaled(v)))`: millimeters to scaled integer
coordinates, rounded up. -/
def scaledCeil (v : ℚ) : ℤ := ⌈v / SCALING_FACTOR⌉

/-- Half-width of the marker square in scaled coordinates
(`pw = 2 * ceil(scaled(pixdim.w_mm))`, about two pixels). -/
def testPw : ℤ := 2 * scaledCeil testPd.w_mm

/-- Half-height of the marker square in scaled coordinates. -/
def testPh : ℤ := 2 * scaledCeil testPd.h_mm

/-- The marker half-width evaluates to 93788 scaled units. -/
lemma testPw_eq : testPw = 93788 := by
  have h : (testPd.w_mm : ℚ) / SCALING_FACTOR = 120000000 / 2559 := by
    norm_num [testPd, SCALING_FACTOR]
  have hc : ⌈(120000000 / 2559 : ℚ)⌉ = 46894 := by
    rw [Int.ceil_eq_iff]
    constructor <;> norm_num
  unfold testPw scaledCeil
  rw [h, hc]
  norm_num

/-- The marker half-height evaluates to 94512 scaled units. -/
lemma testPh_eq : testPh = 94512 := by
  have h : (testPd.h_mm : ℚ) / SCALING_FACTOR = 68000000 / 1439 := by
    norm_num [testPd, SCALING_FACTOR]
  have hc : ⌈(68000000 / 1439 : ℚ)⌉ = 47256 := by
    rw [Int.ceil_eq_iff]
    constructor <;> norm_num
  unfold testPh scaledCeil
  rw [h, hc]
  norm_num

/-- The five canonical marker positions of the test in scaled
coordinates: bottom-left, bottom-right, center, top-right, top-left. -/
def testCorners : Fin 5 → ℤ × ℤ :=
  ![(0, 0), (120000000, 0), (60000000, 34000000),
    (120000000, 68000000), (0, 68000000)]

/-- The marker square drawn at position `k`: the `(-pw,-ph)..(pw,ph)`
square contour translated to the corner. -/
def markerAt (k : Fin 5) : ScaledBox :=
  ⟨(testCorners k).1 - testPw, (testCorners k).1 + testPw,
   (testCorners k).2 - testPh, (testCorners k).2 + testPh⟩

/-- The pixel at which the test reads back a position
(`floor(unscaled(c)/pixdim)` per axis). -/
def readPos (pd : PixelDim) (c : ℤ × ℤ) : ℕ × ℕ :=
  (⌊(c.1 : ℚ) * SCALING_FACTOR / pd.w_mm⌋.toNat,
   ⌊(c.2 : ℚ) * SCALING_FACTOR / pd.h_mm⌋.toNat)

/-- The mirroring truth table of the test (`get_white_index`), indexed by
the mirror configuration and the drawn position. -/
def mirrorTab : Bool × Bool → Fin 5 → Fin 5
  | (false, false) => ![0, 1, 2, 3, 4]
  | (false, true) => ![4, 3, 2, 1, 0]
  | (true, false) => ![1, 0, 2, 4, 3]
  | (true, true) => ![3, 4, 2, 0, 1]

/-- The x-axis pixel interval of a drawn box on the test raster after the
horizontal mirror flip. -/
def xIvB (mx : Bool) (b : ScaledBox) : ℚ × ℚ :=
  if mx then
    ((2560 : ℚ) - (b.xmax : ℚ) * (SCALING_FACTOR / testPd.w_mm),
     (2560 : ℚ) - (b.xmin : ℚ) * (SCALING_FACTOR / testPd.w_mm))
  else
    ((b.xmin : ℚ) * (SCALING_FACTOR / testPd.w_mm),
     (b.xmax : ℚ) * (SCALING_FACTOR / testPd.w_mm))

/-- The y-axis pixel interval of a drawn box on the test raster after the
vertical mirror flip. -/
def yIvB (my : Bool) (b : ScaledBox) : ℚ × ℚ :=
  if my then
    ((1440 : ℚ) - (b.ymax : ℚ) * (SCALING_FACTOR / testPd.h_mm),
     (1440 : ℚ) - (b.ymin : ℚ) * (SCALING_FACTOR / testPd.h_mm))
  else
    ((b.ymin : ℚ) * (SCALING_FACTOR / testPd.h_mm),
     (b.ymax : ℚ) * (SCALING_FACTOR / testPd.h_mm))

/-- Reading back any pixel of the test raster after drawing one box:
the raw-format reset keeps the user's mirror flags, the gamma of 1
selects the power-law curve with exponent 1, and the read byte is the
rendered coverage of the flipped box at that pixel cell. -/
lemma read_draw_box (mx my : Bool) (b : ScaledBox) (x y : ℕ)
    (hx : x < 2560) :
    ((Raster.resetMirror testRes testPd (mx, my)).draw b).read_pixel x y =
      (⌊(255 : ℚ) * applyCoverage (CoverageFn.power 1)
          (coverIv (xIvB mx b).1 (xIvB mx b).2 x *
           coverIv (yIvB my b).1 (yIvB my b).2 y)⌋).toNat := by
  have hsel : (mkImpl testRes testPd Format.RAW ⟨mx, my, 1⟩).gammafn =
      CoverageFn.power 1 := by
    unfold mkImpl
    norm_num
  have htr : (mkImpl testRes testPd Format.RAW ⟨mx, my, 1⟩).trafo =
      ⟨mx, my, 1⟩ := by
    unfold mkImpl
    simp
  have hbox : transformedBox (mkImpl testRes testPd Format.RAW ⟨mx, my, 1⟩) b =
      ⟨(xIvB mx b).1, (xIvB mx b).2, (yIvB my b).1, (yIvB my b).2⟩ := by
    unfold transformedBox toPathBox flipxBox flipyBox
    rw [htr]
    cases mx <;> cases my <;>
      simp [xIvB, yIvB, mkImpl, testRes] <;> norm_num
  show (renderWith (mkImpl testRes testPd Format.RAW ⟨mx, my, 1⟩).gammafn
      (mkImpl testRes testPd Format.RAW ⟨mx, my, 1⟩) b) (y * 2560 + x) = _
  rw [hsel]
  unfold renderWith
  rw [hbox]
  have hxmod : (y * 2560 + x) % (mkImpl testRes testPd Format.RAW
      ⟨mx, my, 1⟩).resolution.width_px = x := by
    show (y * 2560 + x) % 2560 = x
    omega
  have hydiv : (y * 2560 + x) / (mkImpl testRes testPd Format.RAW
      ⟨mx, my, 1⟩).resolution.width_px = y := by
    show (y * 2560 + x) / 2560 = y
    omega
  simp only [hxmod, hydiv]
  show max ((fun _ => 0) (y * 2560 + x)) _ = _
  exact Nat.zero_max _

set_option maxHeartbeats 8000000 in
/-- C8: a default-constructed (or reset-to-empty) raster is empty with
zero resolution; and for every mirror configuration and each of the five
canonical marker positions, drawing the marker square on a freshly reset
raster lights (reads back 255) exactly the position selected by the
mirroring truth table, while the other four positions read back 0. -/
theorem raster_mirroring_truth_table :
    (Raster.isEmptyState Raster.mkDefault = true ∧
      Raster.resolution Raster.mkDefault = ⟨0, 0⟩) ∧
    ∀ (m : Bool × Bool) (k j : Fin 5),
      ((Raster.resetMirror testRes testPd m).draw (markerAt k)).read_pixel
          (readPos testPd (testCorners j)).1
          (readPos testPd (testCorners j)).2 =
        if j = mirrorTab m k then 255 else 0 := by
  refine ⟨⟨rfl, rfl⟩, ?_⟩
  rintro ⟨mx, my⟩ k j
  cases mx <;> cases my <;> fin_cases k <;> fin_cases j <;>
    (rw [read_draw_box _ _ _ _ _
        (by norm_num [readPos, testPd, testCorners, SCALING_FACTOR])];
     norm_num [readPos, testPd, testCorners, SCALING_FACTOR];
     (try simp only [Int.reduceToNat, Nat.cast_ofNat]);
     norm_num [xIvB, yIvB, testPd, SCALING_FACTOR, markerAt,
       testCorners, testPw_eq, testPh_eq, coverIv, applyCoverage,
       mirrorTab] <;> decide)

/-! ## Dynamic configuration store (`Config.cpp`) -/

/-- The typed option kinds dispatched over in `DynamicConfig::option`
(`ConfigOptionType`).  `coNone` stands for the default-constructed option
definition that `(*this->def)[opt_key]` produces for a key without a real
definition (the definition header is not among the sources): its type
matches none of the creation branches, so the source reaches the final
`throw "Unknown option type"`. -/
inductive ConfigOptionType
  | coFloat
  | coFloats
  | coInt
  | coInts
  | coString
  | coStrings
  | coFloatOrPercent
  | coPoint
  | coPoints
  | coBool
  | coBools
  | coEnum
  | coNone
deriving DecidableEq

/-- A stored option: its type tag and its serialized payload
(`ConfigOption`; `serialize`/`deserialize` round the value through its
string form, which the shallow embedding stores directly). -/
structure ConfigOption where
  type : ConfigOptionType
  value : String
deriving DecidableEq

/-- `ConfigOption::serialize`. -/
def ConfigOption.serialize (o : ConfigOption) : String := o.value

/-- `ConfigOption::deserialize`. -/
def ConfigOption.deserialize (o : ConfigOption) (s : String) : ConfigOption :=
  { o with value := s }

/-- The `new ConfigOptionXxx()` dispatch of `DynamicConfig::option`:
a freshly created option for each known definition type, `none` for the
unknown type (the source throws there). -/
def newOption : ConfigOptionType → Option ConfigOption
  | .coNone => none
  | t => some ⟨t, ""⟩

/-- Association-list lookup for the option map (`options.count/[]`). -/
def findOpt (l : List (String × ConfigOption)) (k : String) :
    Option ConfigOption :=
  match l with
  | [] => none
  | (k', o) :: t => if k' = k then some o else findOpt t k

/-- `DynamicConfig`: the option map together with the option definitions
(total, as `std::map::operator[]` default-constructs missing entries). -/
structure DynamicConfig where
  options : List (String × ConfigOption)
  defs : String → ConfigOptionType

/-- `DynamicConfig::option(key, create)`: a present key is returned as
stored; an absent key is created from its definition when `create` is
set, throwing on an unknown definition type, and `NULL` is returned
without touching the map otherwise. -/
def DynamicConfig.option (c : DynamicConfig) (key : String) (create : Bool) :
    Except String (Option ConfigOption × DynamicConfig) :=
  match findOpt c.options key with
  | some o => .ok (some o, c)
  | none =>
    if create then
      match newOption (c.defs key) with
      | some o => .ok (some o, { c with options := c.options ++ [(key, o)] })
      | none => .error "Unknown option type"
    else .ok (none, c)

/-- `ConfigBase::has`: look the key up without creating. -/
def DynamicConfig.has (c : DynamicConfig) (key : String) : Bool :=
  match c.option key false with
  | .ok (some _, _) => true
  | _ => false

/-- Rewrite one map entry: deserialize the new value into the entry that
carries the written key, keep every other entry. -/
def setEntry (key v : String) (kv : String × ConfigOption) :
    String × ConfigOption :=
  if kv.1 = key then (kv.1, kv.2.deserialize v) else kv

/-- Overwrite the stored value of a key (the effect of
`my_opt->deserialize(...)` on the option owned by the map). -/
def DynamicConfig.setValue (c : DynamicConfig) (key : String) (v : String) :
    DynamicConfig :=
  { c with options := c.options.map (setEntry key v) }

/-- `DynamicConfig::keys`: the keys of the option map. -/
def DynamicConfig.keys (c : DynamicConfig) : List String :=
  c.options.map Prod.fst

/-- The loop of `ConfigBase::apply` with a `DynamicConfig` receiver: for
each key, `option(key, true)` fetches or creates the target option
(throwing "Unknown option type" from inside `option` when the key's
definition type is unknown); a `NULL` result throws "Attempt to apply
non-existent option" unless `ignore_nonexistent` is set, in which case
the key is skipped; otherwise the value is copied by deserializing the
serialization of `other`'s option. -/
def applyKeys (other : DynamicConfig) (ig : Bool) :
    DynamicConfig → List String → Except String DynamicConfig
  | c, [] => .ok c
  | c, k :: ks =>
    match c.option k true with
    | .error e => .error e
    | .ok (none, c') =>
      if ig then applyKeys other ig c' ks
      else .error "Attempt to apply non-existent option"
    | .ok (some _, c') =>
      match findOpt other.options k with
      | some o => applyKeys other ig (c'.setValue k o.serialize) ks
      | none => applyKeys other ig c' ks

/-- `ConfigBase::apply(other, ignore_nonexistent)` on `DynamicConfig`. -/
def DynamicConfig.apply (c other : DynamicConfig) (ig : Bool) :
    Except String DynamicConfig :=
  applyKeys other ig c other.keys

/-- Whether this config can hold a key: it is already present, or its
definition type is known so `option(key, true)` can create it. -/
def DynamicConfig.canHold (c : DynamicConfig) (key : String) : Bool :=
  (findOpt c.options key).isSome || (newOption (c.defs key)).isSome

/-- Lookup in a concatenation: a hit on the left wins. -/
lemma findOpt_append_of_some (l₁ l₂ : List (String × ConfigOption))
    (k : String) (o : ConfigOption) (h : findOpt l₁ k = some o) :
    findOpt (l₁ ++ l₂) k = some o := by
  induction l₁ with
  | nil => simp [findOpt] at h
  | cons kv t ih =>
    obtain ⟨k₀, o₀⟩ := kv
    by_cases h₀ : k₀ = k
    · simp only [findOpt, if_pos h₀] at h
      simp only [List.cons_append, findOpt, if_pos h₀]
      exact h
    · simp only [findOpt, if_neg h₀] at h
      simp only [List.cons_append, findOpt, if_neg h₀]
      exact ih h

/-- Lookup in a concatenation: a miss on the left falls to the right. -/
lemma findOpt_append_of_none (l₁ l₂ : List (String × ConfigOption))
    (k : String) (h : findOpt l₁ k = none) :
    findOpt (l₁ ++ l₂) k = findOpt l₂ k := by
  induction l₁ with
  | nil => simp
  | cons kv t ih =>
    obtain ⟨k₀, o₀⟩ := kv
    by_cases h₀ : k₀ = k
    · simp only [findOpt, if_pos h₀] at h
      exact absurd h (by simp)
    · simp only [findOpt, if_neg h₀] at h
      simp only [List.cons_append, findOpt, if_neg h₀]
      exact ih h

/-- Lookup after overwriting one key's value. -/
lemma findOpt_set (l : List (String × ConfigOption)) (k k' v : String) :
    findOpt (l.map (setEntry k v)) k' =
      if k' = k then (findOpt l k').map (fun o => o.deserialize v)
      else findOpt l k' := by
  induction l with
  | nil => by_cases h : k' = k <;> simp [findOpt, h]
  | cons kv t ih =>
    obtain ⟨k₀, o₀⟩ := kv
    simp only [List.map_cons]
    by_cases h₀ : k₀ = k
    · rw [show setEntry k v (k₀, o₀) = (k₀, o₀.deserialize v) from
        if_pos h₀]
      by_cases hk : k₀ = k'
      · rw [show findOpt ((k₀, o₀.deserialize v) ::
            t.map (setEntry k v)) k' = some (o₀.deserialize v) from
          if_pos hk]
        rw [if_pos (hk.symm.trans h₀)]
        rw [show findOpt ((k₀, o₀) :: t) k' = some o₀ from if_pos hk]
        rfl
      · rw [show findOpt ((k₀, o₀.deserialize v) ::
            t.map (setEntry k v)) k' = findOpt (t.map (setEntry k v)) k' from
          if_neg hk]
        rw [show findOpt ((k₀, o₀) :: t) k' = findOpt t k' from if_neg hk]
        exact ih
    · rw [show setEntry k v (k₀, o₀) = (k₀, o₀) from if_neg h₀]
      by_cases hk : k₀ = k'
      · have hk'' : ¬k' = k := fun hkk => h₀ (hk.trans hkk)
        rw [show findOpt ((k₀, o₀) :: t.map (setEntry k v)) k' =
            some o₀ from if_pos hk]
        rw [if_neg hk'']
        rw [show findOpt ((k₀, o₀) :: t) k' = some o₀ from if_pos hk]
      · rw [show findOpt ((k₀, o₀) :: t.map (setEntry k v)) k' =
            findOpt (t.map (setEntry k v)) k' from if_neg hk]
        rw [show findOpt ((k₀, o₀) :: t) k' = findOpt t k' from if_neg hk]
        exact ih

/-- One `option(key, true)` step on a holdable key: it succeeds, the key
is present afterwards, the definitions and the other keys' entries are
untouched, and holdability of every key is preserved verbatim. -/
lemma option_create_of_canHold (c : DynamicConfig) (k : String)
    (h : c.canHold k = true) :
    ∃ o c₁, c.option k true = .ok (some o, c₁) ∧ c₁.defs = c.defs ∧
      findOpt c₁.options k = some o ∧
      (∀ k', k' ≠ k → findOpt c₁.options k' = findOpt c.options k') ∧
      (∀ k', c₁.canHold k' = c.canHold k') := by
  unfold DynamicConfig.canHold at h
  rcases hfind : findOpt c.options k with _ | o
  · rw [hfind] at h
    simp only [Option.isSome_none, Bool.false_or,
      Option.isSome_iff_exists] at h
    obtain ⟨o, ho⟩ := h
    refine ⟨o, ⟨c.options ++ [(k, o)], c.defs⟩, ?_, rfl, ?_, ?_, ?_⟩
    · simp [DynamicConfig.option, hfind, ho]
    · rw [findOpt_append_of_none _ _ _ hfind]
      simp [findOpt]
    · intro k' hk'
      rcases hg : findOpt c.options k' with _ | o'
      · rw [findOpt_append_of_none _ _ _ hg]
        simp [findOpt, Ne.symm hk']
      · exact findOpt_append_of_some _ _ _ _ hg
    · intro k'
      by_cases hk' : k' = k
      · subst hk'
        unfold DynamicConfig.canHold
        rw [hfind, findOpt_append_of_none _ _ _ hfind]
        simp [findOpt, ho]
      · unfold DynamicConfig.canHold
        rcases hg : findOpt c.options k' with _ | o'
        · rw [findOpt_append_of_none _ _ _ hg]
          simp [findOpt, Ne.symm hk', hg]
        · rw [findOpt_append_of_some _ _ _ _ hg]
  · rw [hfind] at h
    refine ⟨o, c, ?_, rfl, hfind, fun _ _ => rfl, fun _ => rfl⟩
    simp [DynamicConfig.option, hfind]

/-- `setValue` keeps the definitions, the other keys' entries, the
presence of the written key, and holdability of every key. -/
lemma setValue_spec (c : DynamicConfig) (k v : String) :
    (c.setValue k v).defs = c.defs ∧
    (∀ k', k' ≠ k →
      findOpt (c.setValue k v).options k' = findOpt c.options k') ∧
    (∀ o, findOpt c.options k = some o →
      findOpt (c.setValue k v).options k = some (o.deserialize v)) ∧
    (∀ k', (c.setValue k v).canHold k' = c.canHold k') := by
  refine ⟨rfl, ?_, ?_, ?_⟩
  · intro k' hk'
    unfold DynamicConfig.setValue
    rw [findOpt_set, if_neg hk']
  · intro o ho
    unfold DynamicConfig.setValue
    rw [findOpt_set, if_pos rfl, ho]
    rfl
  · intro k'
    unfold DynamicConfig.canHold DynamicConfig.setValue
    rw [findOpt_set]
    by_cases hk' : k' = k
    · rw [if_pos hk']
      rcases hg : findOpt c.options k' with _ | o' <;> simp
    · rw [if_neg hk']

/-- Applying a list of holdable keys succeeds, leaves the unlisted keys
untouched and copies every listed key's serialized value from `other`. -/
lemma applyKeys_ok_spec (other : DynamicConfig) (ig : Bool)
    (ks : List String) :
    ∀ c : DynamicConfig, (∀ k ∈ ks, c.canHold k = true) →
    ∃ c', applyKeys other ig c ks = .ok c' ∧ c'.defs = c.defs ∧
      (∀ k, k ∉ ks → findOpt c'.options k = findOpt c.options k) ∧
      (∀ k ∈ ks, ∀ o, findOpt other.options k = some o →
        ∃ o', findOpt c'.options k = some o' ∧ o'.value = o.serialize) := by
  induction ks with
  | nil =>
    intro c _
    exact ⟨c, rfl, rfl, fun _ _ => rfl, fun k hk => absurd hk (by simp)⟩
  | cons k0 ks ih =>
    intro c h
    obtain ⟨o0, c₁, hopt, hdefs₁, hin₁, hpres₁, hch₁⟩ :=
      option_create_of_canHold c k0 (h k0 (List.mem_cons_self _ _))
    rcases hoo : findOpt other.options k0 with _ | oo
    · -- no value to copy for this key: the step keeps `c₁`
      have htail : ∀ k ∈ ks, c₁.canHold k = true := fun k hk =>
        (hch₁ k).trans (h k (List.mem_cons_of_mem _ hk))
      obtain ⟨c', happ, hdefs', hpres', hcopy'⟩ := ih c₁ htail
      refine ⟨c', ?_, hdefs'.trans hdefs₁, ?_, ?_⟩
      · unfold applyKeys
        rw [hopt, hoo]
        exact happ
      · intro k hk
        rw [hpres' k (fun hm => hk (List.mem_cons_of_mem _ hm)),
          hpres₁ k (fun he => hk (he ▸ List.mem_cons_self _ _))]
      · intro k hk o ho
        rcases List.mem_cons.1 hk with he | hm
        · subst he
          rw [ho] at hoo
          exact absurd hoo (by simp)
        · exact hcopy' k hm o ho
    · -- copy the value into the (present) key
      obtain ⟨hdefs₂, hpres₂, hset₂, hch₂⟩ :=
        setValue_spec c₁ k0 oo.serialize
      have htail : ∀ k ∈ ks, (c₁.setValue k0 oo.serialize).canHold k = true :=
        fun k hk =>
          (hch₂ k).trans ((hch₁ k).trans (h k (List.mem_cons_of_mem _ hk)))
      obtain ⟨c', happ, hdefs', hpres', hcopy'⟩ :=
        ih (c₁.setValue k0 oo.serialize) htail
      refine ⟨c', ?_, (hdefs'.trans hdefs₂).trans hdefs₁, ?_, ?_⟩
      · unfold applyKeys
        rw [hopt, hoo]
        exact happ
      · intro k hk
        rw [hpres' k (fun hm => hk (List.mem_cons_of_mem _ hm)),
          hpres₂ k (fun he => hk (he ▸ List.mem_cons_self _ _)),
          hpres₁ k (fun he => hk (he ▸ List.mem_cons_self _ _))]
      · intro k hk o ho
        by_cases hmem : k ∈ ks
        · exact hcopy' k hmem o ho
        · have he : k = k0 := by
            rcases List.mem_cons.1 hk with he | hm
            · exact he
            · exact absurd hm hmem
          subst he
          rw [ho] at hoo
          injection hoo with hoe
          subst hoe
          refine ⟨o0.deserialize o.serialize, ?_, rfl⟩
          rw [hpres' k hmem]
          exact hset₂ o0 hin₁

/-- If some key of `other` is not holdable, `apply` raises
"Unknown option type" regardless of `ignore_nonexistent`, because the
throw happens inside `option(key, true)` before the null check. -/
lemma applyKeys_error_of_bad (other : DynamicConfig) (ig : Bool)
    (ks : List String) :
    ∀ c : DynamicConfig, (∃ k ∈ ks, c.canHold k = false) →
    applyKeys other ig c ks = .error "Unknown option type" := by
  induction ks with
  | nil =>
    rintro c ⟨k, hk, _⟩
    simp at hk
  | cons k0 ks ih =>
    rintro c ⟨k, hk, hbad⟩
    by_cases hk0 : c.canHold k0 = true
    · obtain ⟨o0, c₁, hopt, _, _, _, hch₁⟩ := option_create_of_canHold c k0 hk0
      have hkne : k ≠ k0 := fun he => by rw [he, hk0] at hbad; cases hbad
      have hkks : k ∈ ks := by
        rcases List.mem_cons.1 hk with he | hm
        · exact absurd he hkne
        · exact hm
      rcases hoo : findOpt other.options k0 with _ | oo
      · have : c₁.canHold k = false := (hch₁ k).trans hbad
        unfold applyKeys
        rw [hopt, hoo]
        exact ih c₁ ⟨k, hkks, this⟩
      · obtain ⟨_, _, _, hch₂⟩ := setValue_spec c₁ k0 oo.serialize
        have : (c₁.setValue k0 oo.serialize).canHold k = false :=
          (hch₂ k).trans ((hch₁ k).trans hbad)
        unfold applyKeys
        rw [hopt, hoo]
        exact ih _ ⟨k, hkks, this⟩
    · have hbad0 : c.canHold k0 = false := by
        cases hcb : c.canHold k0
        · rfl
        · exact absurd hcb hk0
      unfold DynamicConfig.canHold at hbad0
      simp only [Bool.or_eq_false_iff] at hbad0
      obtain ⟨hfind0, hnew0⟩ := hbad0
      rcases hf : findOpt c.options k0 with _ | o
      · rcases hn : newOption (c.defs k0) with _ | o'
        · have hopt : c.option k0 true = .error "Unknown option type" := by
            simp [DynamicConfig.option, hf, hn]
          unfold applyKeys
          rw [hopt]
        · rw [hn] at hnew0
          simp at hnew0
      · rw [hf] at hfind0
        simp at hfind0

/-- C10 (amended): `option(key, create=false)` returns null for an absent
key leaving the config untouched (`has` stays false); `apply(other, ig)`
copies via serialize/deserialize every key of `other` that this config
can hold - creating the option when absent - and, as soon as some key of
`other` has an unknown definition type, throws "Unknown option type" from
inside `option(key, true)` regardless of `ig`. -/
theorem dynamic_config_lookup_and_apply :
    (∀ (c : DynamicConfig) (key : String), findOpt c.options key = none →
      c.option key false = .ok (none, c) ∧ c.has key = false) ∧
    (∀ (c other : DynamicConfig) (ig : Bool),
      (∀ k ∈ other.keys, c.canHold k = true) →
      ∃ c', c.apply other ig = .ok c' ∧
        (∀ k ∈ other.keys, ∀ o, findOpt other.options k = some o →
          ∃ o', findOpt c'.options k = some o' ∧ o'.value = o.serialize)) ∧
    (∀ (c other : DynamicConfig) (ig : Bool),
      (∃ k ∈ other.keys, c.canHold k = false) →
      c.apply other ig = .error "Unknown option type") := by
  refine ⟨?_, ?_, ?_⟩
  · intro c key hfind
    have hopt : c.option key false = .ok (none, c) := by
      simp [DynamicConfig.option, hfind]
    refine ⟨hopt, ?_⟩
    unfold DynamicConfig.has
    rw [hopt]
  · intro c other ig h
    obtain ⟨c', happ, _, _, hcopy⟩ := applyKeys_ok_spec other ig other.keys c h
    exact ⟨c', happ, hcopy⟩
  · intro c other ig h
    exact applyKeys_error_of_bad other ig other.keys c h

/-- Counterexample to C10 as stated: with `ignore_nonexistent = true`,
applying a config holding a key of unknown definition type still throws
"Unknown option type" (the throw happens inside `option(key, true)`,
which never returns null for a `DynamicConfig`); and a key absent from
this config but of known definition type is not skipped - it is created
and copied, although it did not exist in both configs. -/
theorem dynamic_config_apply_counterexample :
    DynamicConfig.apply ⟨[], fun _ => ConfigOptionType.coNone⟩
        ⟨[("k", ⟨ConfigOptionType.coFloat, "1.5"⟩)],
         fun _ => ConfigOptionType.coNone⟩ true =
      .error "Unknown option type" ∧
    DynamicConfig.has ⟨[], fun _ => ConfigOptionType.coFloat⟩ "k" = false ∧
    (DynamicConfig.apply ⟨[], fun _ => ConfigOptionType.coFloat⟩
        ⟨[("k", ⟨ConfigOptionType.coFloat, "1.5"⟩)],
         fun _ => ConfigOptionType.coFloat⟩ true).map
      DynamicConfig.options =
      Except.ok [("k", ⟨ConfigOptionType.coFloat, "1.5"⟩)] :=
  ⟨rfl, rfl, rfl⟩

/-- Witness for the amended C10 at concrete one-key configurations:
looking up the absent key "k" without creating returns null and leaves
the config untouched, and applying a config holding a key of unknown
definition type errors even with `ignore_nonexistent = true`. -/
theorem dynamic_config_lookup_and_apply_witness :
    (DynamicConfig.option ⟨[], fun _ => ConfigOptionType.coFloat⟩ "k" false =
        .ok (none, ⟨[], fun _ => ConfigOptionType.coFloat⟩) ∧
      DynamicConfig.has ⟨[], fun _ => ConfigOptionType.coFloat⟩ "k" = false) ∧
    DynamicConfig.apply ⟨[], fun _ => ConfigOptionType.coNone⟩
        ⟨[("j", ⟨ConfigOptionType.coInt, "2"⟩)],
         fun _ => ConfigOptionType.coNone⟩ true =
      .error "Unknown option type" :=
  ⟨dynamic_config_lookup_and_apply.1
      ⟨[], fun _ => ConfigOptionType.coFloat⟩ "k" rfl,
   dynamic_config_lookup_and_apply.2.2
      ⟨[], fun _ => ConfigOptionType.coNone⟩
      ⟨[("j", ⟨ConfigOptionType.coInt, "2"⟩)],
       fun _ => ConfigOptionType.coNone⟩ true
      ⟨"j", by simp [DynamicConfig.keys], by decide⟩⟩

end Slic3rSpec
